import Mathlib

/-!
# Verification of the MCP orchestrator client (mcp-cli-client)

Shallow embedding of the tool-call orchestration core of the repository:
the `MCPOrchestrator` class of `index.ts` (server registration, the
flattened tool list, `processQuery`) and the two provider adapters
(`Claude.chat` in `src/llm/anthropic.ts`, `GPT.chat` in `src/llm/gpt.ts`).

External collaborators (the LLM endpoint, the MCP backend processes and
the platform `JSON.parse` / `JSON.stringify`) are modelled as follows:
the LLM is an oracle function supplied as input, a backend is its
advertised tool list plus a `callTool` function, and JSON values are an
inductive `JsValue` (with JS numbers restricted to integers; no claim
depends on float behaviour).  `JsValue.undef` stands for JS `undefined`
and `JsValue.null` for JS `null`, which the source distinguishes only
through `??` and `typeof` checks that are embedded faithfully below.
-/

/-- A JavaScript/JSON value.  `undef` is JS `undefined`. -/
inductive JsValue where
  | undef : JsValue
  | null : JsValue
  | bool : Bool → JsValue
  | num : Int → JsValue
  | str : String → JsValue
  | arr : List JsValue → JsValue
  | obj : List (String × JsValue) → JsValue
deriving Repr

/-- JS `a ?? b`: `b` when `a` is `undefined` or `null`, else `a`. -/
def jsCoalesce (a b : JsValue) : JsValue :=
  match a with
  | .undef => b
  | .null => b
  | v => v

/-! ## JSON.stringify (platform builtin used by the source at
`index.ts` line 88: `JSON.stringify(toolResult.content ?? "")`). -/

/-- One hex digit, lowercase, as emitted by `JSON.stringify` escapes. -/
def hexDigit (n : Nat) : Char :=
  if n < 10 then Char.ofNat (48 + n) else Char.ofNat (87 + n)

/-- Four-hex-digit rendering used in `\u00XX` escapes. -/
def hex4 (n : Nat) : String :=
  ⟨[hexDigit (n / 4096 % 16), hexDigit (n / 256 % 16),
    hexDigit (n / 16 % 16), hexDigit (n % 16)]⟩

/-- Escape one character the way `JSON.stringify` escapes string content. -/
def escapeChar (c : Char) : String :=
  if c = '"' then "\\\""
  else if c = '\\' then "\\\\"
  else if c = '\n' then "\\n"
  else if c = '\t' then "\\t"
  else if c = '\r' then "\\r"
  else if c = '\x08' then "\\b"
  else if c = '\x0c' then "\\f"
  else if c.toNat < 32 then "\\u" ++ hex4 c.toNat
  else ⟨[c]⟩

/-- Escape full string content (without the surrounding quotes). -/
def escapeString (s : String) : String :=
  s.data.foldr (fun c acc => escapeChar c ++ acc) ""

mutual

/-- Body of `JSON.stringify` on a defined value.  `undef` only occurs
below the top level: inside an array it prints as `null`, inside an
object the entry is dropped (see `stringifyObjEntries`), matching JS. -/
def stringifyVal : JsValue → String
  | .undef => "null"
  | .null => "null"
  | .bool b => if b then "true" else "false"
  | .num n => toString n
  | .str s => "\"" ++ escapeString s ++ "\""
  | .arr items => "[" ++ String.intercalate "," (stringifyList items) ++ "]"
  | .obj kvs => "\x7b" ++ String.intercalate "," (stringifyObjEntries kvs) ++ "\x7d"

/-- Array elements, in order. -/
def stringifyList : List JsValue → List String
  | [] => []
  | v :: rest => stringifyVal v :: stringifyList rest

/-- Object entries; entries whose value is `undefined` are omitted. -/
def stringifyObjEntries : List (String × JsValue) → List String
  | [] => []
  | (k, v) :: rest =>
    match v with
    | .undef => stringifyObjEntries rest
    | v => ("\"" ++ escapeString k ++ "\":" ++ stringifyVal v) :: stringifyObjEntries rest

end

/-- `JSON.stringify`: `none` models the JS result `undefined`
(returned only for a top-level `undefined` argument). -/
def jsonStringify : JsValue → Option String
  | .undef => none
  | v => some (stringifyVal v)

/-! ## JSON.parse (platform builtin used by the source at
`index.ts` line 83: `JSON.parse(toolCall.function.arguments)`).
Modelled as a fuel-based recursive-descent parser over the `JsValue`
grammar; numbers are restricted to (optionally signed) integers and
`\u` escapes are not modelled, in line with the integer-only `JsValue`. -/

/-- Skip JSON whitespace. -/
def skipWs : List Char → List Char
  | c :: cs => if c = ' ' ∨ c = '\n' ∨ c = '\t' ∨ c = '\r' then skipWs cs else c :: cs
  | [] => []

/-- String body scanner: consumes up to the closing quote, decoding escapes. -/
def parseStrAux : List Char → List Char → Option (String × List Char)
  | '"' :: rest, acc => some (⟨acc.reverse⟩, rest)
  | '\\' :: c :: rest, acc =>
    if c = '"' then parseStrAux rest ('"' :: acc)
    else if c = '\\' then parseStrAux rest ('\\' :: acc)
    else if c = '/' then parseStrAux rest ('/' :: acc)
    else if c = 'n' then parseStrAux rest ('\n' :: acc)
    else if c = 't' then parseStrAux rest ('\t' :: acc)
    else if c = 'r' then parseStrAux rest ('\r' :: acc)
    else if c = 'b' then parseStrAux rest ('\x08' :: acc)
    else if c = 'f' then parseStrAux rest ('\x0c' :: acc)
    else none
  | c :: rest, acc => parseStrAux rest (c :: acc)
  | [], _ => none

/-- Maximal digit run, accumulating its value. -/
def takeDigits : List Char → Nat → Nat × List Char
  | c :: cs, acc =>
    if c.isDigit then takeDigits cs (acc * 10 + (c.toNat - 48)) else (acc, c :: cs)
  | [], acc => (acc, [])

/-- Unsigned integer literal: at least one digit, and not followed by a
fraction or exponent (non-integer numbers are outside the model). -/
def parseNat0 : List Char → Option (Nat × List Char)
  | c :: cs =>
    if c.isDigit then
      match takeDigits (c :: cs) 0 with
      | (_, '.' :: _) => none
      | (_, 'e' :: _) => none
      | (_, 'E' :: _) => none
      | (n, r) => some (n, r)
    else none
  | [] => none

/-- Integer literal with optional leading minus sign. -/
def parseNum : List Char → Option (Int × List Char)
  | '-' :: rest => (parseNat0 rest).map (fun p => (-(p.1 : Int), p.2))
  | cs => (parseNat0 cs).map (fun p => ((p.1 : Int), p.2))

mutual

/-- One JSON value, fuel-bounded. -/
def parseVal : Nat → List Char → Option (JsValue × List Char)
  | 0, _ => none
  | fuel + 1, cs =>
    match skipWs cs with
    | 'n' :: 'u' :: 'l' :: 'l' :: rest => some (.null, rest)
    | 't' :: 'r' :: 'u' :: 'e' :: rest => some (.bool true, rest)
    | 'f' :: 'a' :: 'l' :: 's' :: 'e' :: rest => some (.bool false, rest)
    | '"' :: rest => (parseStrAux rest []).map (fun p => (.str p.1, p.2))
    | '[' :: rest =>
      (match skipWs rest with
       | ']' :: r2 => some (.arr [], r2)
       | r2 => (parseArrItems fuel r2).map (fun p => (.arr p.1, p.2)))
    | '{' :: rest =>
      (match skipWs rest with
       | '}' :: r2 => some (.obj [], r2)
       | r2 => (parseObjItems fuel r2).map (fun p => (.obj p.1, p.2)))
    | cs' => (parseNum cs').map (fun p => (.num p.1, p.2))

/-- Comma-separated array items up to the closing bracket. -/
def parseArrItems : Nat → List Char → Option (List JsValue × List Char)
  | 0, _ => none
  | fuel + 1, cs =>
    match parseVal fuel cs with
    | none => none
    | some (v, rest) =>
      match skipWs rest with
      | ']' :: r2 => some ([v], r2)
      | ',' :: r2 =>
        (parseArrItems fuel r2).map (fun p => (v :: p.1, p.2))
      | _ => none

/-- Comma-separated `"key": value` pairs up to the closing brace. -/
def parseObjItems : Nat → List Char → Option (List (String × JsValue) × List Char)
  | 0, _ => none
  | fuel + 1, cs =>
    match skipWs cs with
    | '"' :: rest =>
      match parseStrAux rest [] with
      | none => none
      | some (k, r1) =>
        match skipWs r1 with
        | ':' :: r2 =>
          (match parseVal fuel r2 with
           | none => none
           | some (v, r3) =>
             match skipWs r3 with
             | '}' :: r4 => some ([(k, v)], r4)
             | ',' :: r4 => (parseObjItems fuel r4).map (fun p => ((k, v) :: p.1, p.2))
             | _ => none)
        | _ => none
    | _ => none

end

/-- `JSON.parse` over the modelled grammar: the whole input must be
consumed (up to trailing whitespace). -/
def jsonParse (s : String) : Option JsValue :=
  match parseVal (s.data.length + 1) s.data with
  | some (v, rest) => if skipWs rest = [] then some v else none
  | none => none

/-! ## Tool registry data model (`index.ts` lines 18–60, 117–129). -/

/-- A tool advertised by a backend in its `listTools` answer
(`{name, description, inputSchema}` per the MCP contract). -/
structure NativeTool where
  name : String
  description : String
  inputSchema : JsValue

/-- Result payload of a backend `callTool` answer; `content` may be a
string, a structured value, or absent (`undef`). -/
structure ToolResult where
  content : JsValue

/-- An external backend process, as the orchestrator observes it: the
tool list returned by the initial `listTools` handshake and the
behaviour of `callTool` ({name, arguments} → result). -/
structure Backend where
  tools : List NativeTool
  callTool : String → JsValue → ToolResult

/-- `function` part of an OpenAI `ChatCompletionTool`. -/
structure ChatFunction where
  name : String
  description : String
  parameters : JsValue

/-- OpenAI `ChatCompletionTool` built at registration
(`index.ts` lines 47–54). -/
structure ChatTool where
  type : String
  function : ChatFunction

/-- The sanitizer applied to `` `${name}_${tool.name}` ``:
`.replace(/[^a-zA-Z0-9_-]/g, "_")` replaces every character outside
`[a-zA-Z0-9_-]` by an underscore. -/
def sanChar (c : Char) : Char :=
  if c.isAlphanum ∨ c = '_' ∨ c = '-' then c else '_'

/-- Whole-string sanitization. -/
def sanitize (s : String) : String :=
  ⟨s.data.map sanChar⟩

/-- The qualified tool name: `` `${name}_${tool.name}` `` sanitized. -/
def qualifiedName (serverName toolName : String) : String :=
  sanitize (serverName ++ "_" ++ toolName)

/-- The `ChatCompletionTool` list built from the tool list of one backend
(`toolsResult.tools.map(...)`, identical at `index.ts` lines 47–54 and
121–128). -/
def buildFunctions (name : String) (tools : List NativeTool) : List ChatTool :=
  tools.map (fun tool =>
    { type := "function"
      function :=
        { name := qualifiedName name tool.name
          description := "[" ++ name ++ "] " ++ tool.description
          parameters := tool.inputSchema } })

/-- One registered server (`MCPServer` of `index.ts` lines 18–23);
`client`/`transport` are collapsed into the `callTool` behaviour. -/
structure MCPServer where
  name : String
  functions : List ChatTool
  callTool : String → JsValue → ToolResult

/-- JS `Map.set`: overwrite in place if the key exists (keeping its
insertion position), else append. -/
def mapSet (m : List (String × MCPServer)) (k : String) (v : MCPServer) :
    List (String × MCPServer) :=
  if m.any (fun p => p.1 == k) then
    m.map (fun p => if p.1 == k then (k, v) else p)
  else m ++ [(k, v)]

/-- JS `Map.get`. -/
def mapGet (m : List (String × MCPServer)) (k : String) : Option MCPServer :=
  (m.find? (fun p => p.1 == k)).map Prod.snd

/-! ## Conversation data model (`OpenAI.ChatCompletionMessageParam`
and tool calls, as the orchestrator constructs and reads them). -/

/-- `toolCall.function`: qualified tool name plus serialized arguments. -/
structure ToolCallFunction where
  name : String
  arguments : String

/-- A model-issued tool call: opaque id plus function name/arguments. -/
structure ToolCall where
  id : String
  function : ToolCallFunction

/-- One conversation turn as `processQuery` builds it: the system and
user seed, the appended assistant tool-call turns, and the appended tool
result turns (`index.ts` lines 63–66 and 90–93). -/
inductive Message where
  | system : String → Message
  | user : String → Message
  | assistant : List ToolCall → Message
  | tool : String → String → Message

/-- `choices[i].message` of a chat completion: `content` may be absent
(tool-call-only turns), `tool_calls` may be absent. -/
structure ResponseMessage where
  content : Option String
  tool_calls : Option (List ToolCall)

/-- One `choices` entry. -/
structure Choice where
  message : ResponseMessage

/-- The response shape the orchestrator reads (`result.choices[0].message`). -/
structure ModelResponse where
  choices : List Choice

/-- The `LLM` interface (`src/llm/llm.ts`): `chat(messages, tools,
tool_choice)`.  A deterministic oracle function models the endpoint;
the two call sites in the source pass distinct argument lists, so a
deterministic oracle loses no generality within one `processQuery`. -/
structure LLM where
  chat : List Message → List ChatTool → String → ModelResponse

/-- `MCPOrchestrator` state: the injected LLM and prompt, the server
map, and the flattened `allFunctions` list. -/
structure Orchestrator where
  llm : LLM
  systemPrompt : String
  servers : List (String × MCPServer)
  allFunctions : List ChatTool

/-- `new MCPOrchestrator(llm, systemPrompt)`. -/
def mkOrchestrator (llm : LLM) (systemPrompt : String) : Orchestrator :=
  { llm := llm, systemPrompt := systemPrompt, servers := [], allFunctions := [] }

/-- `registerServer` / one iteration of `registerServersFromConfig`
(`index.ts` lines 37–60 and 121–129): build the sanitized descriptor
list, `servers.set(name, …)`, append to `allFunctions`.  There is no
duplicate check; `Map.set` overwrites an existing entry. -/
def registerServer (o : Orchestrator) (name : String) (backend : Backend) :
    Orchestrator :=
  let functions := buildFunctions name backend.tools
  { o with
      servers := mapSet o.servers name
        { name := name, functions := functions, callTool := backend.callTool }
      allFunctions := o.allFunctions ++ functions }

/-- `registerServersFromConfig`: register every configured backend in
order (the registry mutation per entry is identical to `registerServer`). -/
def registerServersFromConfig (o : Orchestrator) :
    List (String × Backend) → Orchestrator
  | [] => o
  | (name, backend) :: rest =>
    registerServersFromConfig (registerServer o name backend) rest

/-! ## String routing primitives used by `processQuery`
(`index.ts` lines 76 and 82). -/

/-- JS `s.split("_")[0]` for the single-character separator `"_"`:
the prefix of `s` before its first underscore (`s` itself when there is
none, `""` on a leading underscore — exactly the first element JS
`split` produces). -/
def splitHeadUnderscore (s : String) : String :=
  ⟨s.data.takeWhile (fun c => c ≠ '_')⟩

/-- Worker for `replaceFirst`: drop the first occurrence of `pat`. -/
def replaceFirstGo (pat : List Char) : List Char → List Char
  | [] => []
  | c :: cs =>
    if pat.isPrefixOf (c :: cs) then List.drop pat.length (c :: cs)
    else c :: replaceFirstGo pat cs

/-- JS `s.replace(pat, "")` with a string pattern: remove the FIRST
occurrence of `pat` only (JS `replace` with a non-regex pattern touches
a single occurrence; the Lean `String.replace` would remove all). -/
def replaceFirst (s pat : String) : String :=
  if pat.isEmpty then s else ⟨replaceFirstGo pat.data s.data⟩

/-! ## processQuery (`index.ts` lines 62–97). -/

/-- The error outcomes of one query: the two `throw new Error(...)`
sites, a `JSON.parse` failure, and the TypeError a missing
`choices[0]` would raise. -/
inductive QueryError where
  | emptyChoices : QueryError
  | unknownTool : String → QueryError
  | unknownServer : String → QueryError
  | malformedArguments : String → QueryError
deriving Repr, DecidableEq

/-- `index.ts` lines 85–88: results are normalized to a string — a
string passes through, anything else goes through
`JSON.stringify(content ?? "")`. -/
def normalizeToolContent (c : JsValue) : String :=
  match c with
  | .str s => s
  | c => (jsonStringify (jsCoalesce c (.str ""))).getD ""

/-- Tool-call resolution, exactly the steps at `index.ts` lines 73–79:
find the descriptor in `allFunctions` by qualified name, take the text
before the first `_` as the server name, look that up in the server
map, and strip the first occurrence of `` `${serverName}_` `` to get the
name forwarded to the backend.  Returns (serverName, server,
forwarded tool name). -/
def resolveTool (o : Orchestrator) (qname : String) :
    Except QueryError (String × MCPServer × String) :=
  match o.allFunctions.find? (fun f => f.function.name == qname) with
  | none => .error (.unknownTool qname)
  | some toolMeta =>
    let serverName := splitHeadUnderscore toolMeta.function.name
    match mapGet o.servers serverName with
    | none => .error (.unknownServer serverName)
    | some server =>
      .ok (serverName, server, replaceFirst toolMeta.function.name (serverName ++ "_"))

/-- A record of one backend invocation made during dispatch. -/
structure Invocation where
  serverName : String
  toolName : String
  args : JsValue

/-- The `for (const toolCall of response.tool_calls)` body
(`index.ts` lines 72–93), sequential and in model order: resolve, parse
arguments, call the backend, append the assistant tool-call message and
the correlated tool-result message.  `msgs`/`invs` accumulate the
history and the invocation record; a failure aborts the whole dispatch
with nothing appended for the failing call. -/
def dispatchCalls (o : Orchestrator) :
    List ToolCall → List Message → List Invocation →
    Except QueryError (List Message × List Invocation)
  | [], msgs, invs => .ok (msgs, invs)
  | tc :: rest, msgs, invs =>
    match resolveTool o tc.function.name with
    | .error e => .error e
    | .ok (serverName, server, toolName) =>
      match jsonParse tc.function.arguments with
      | none => .error (.malformedArguments tc.function.arguments)
      | some args =>
        let toolResult := server.callTool toolName args
        let content := normalizeToolContent toolResult.content
        dispatchCalls o rest
          (msgs ++ [.assistant [tc], .tool tc.id content])
          (invs ++ [{ serverName := serverName, toolName := toolName, args := args }])

/-- The arguments of one `llm.chat` call, as observed by the oracle. -/
structure ChatRecord where
  messages : List Message
  tools : List ChatTool
  toolChoice : String

/-- Outcome of a successful `processQuery` run.  `answer` is the
string the source returns; the other fields record the observable
interactions of the run (they do not influence `answer`):
every `llm.chat` call with its arguments, every backend invocation in
order, the final message history, and the number of tool-dispatch
phases entered. -/
structure QueryResult where
  answer : String
  chats : List ChatRecord
  invocations : List Invocation
  finalMessages : List Message
  dispatchRounds : Nat

/-- `processQuery` (`index.ts` lines 62–97): seed the history with
system + user, call the model once with `allFunctions` and
`tool_choice: "auto"`; return its content if it has no tool calls;
otherwise dispatch every tool call sequentially, then make one final
`llm.chat(messages)` call — with the defaulted arguments
`tools = []`, `tool_choice = "auto"` — and return its content. -/
def processQuery (o : Orchestrator) (query : String) :
    Except QueryError QueryResult :=
  let messages : List Message := [.system o.systemPrompt, .user query]
  let result := o.llm.chat messages o.allFunctions "auto"
  match result.choices with
  | [] => .error .emptyChoices
  | choice :: _ =>
    let response := choice.message
    match response.tool_calls.getD [] with
    | [] =>
      .ok { answer := response.content.getD ""
            chats := [{ messages := messages, tools := o.allFunctions, toolChoice := "auto" }]
            invocations := []
            finalMessages := messages
            dispatchRounds := 0 }
    | tc :: tcs =>
      match dispatchCalls o (tc :: tcs) messages [] with
      | .error e => .error e
      | .ok (msgs', invs) =>
        let final := o.llm.chat msgs' [] "auto"
        match final.choices with
        | [] => .error .emptyChoices
        | fchoice :: _ =>
          .ok { answer := fchoice.message.content.getD ""
                chats := [{ messages := messages, tools := o.allFunctions, toolChoice := "auto" },
                          { messages := msgs', tools := [], toolChoice := "auto" }]
                invocations := invs
                finalMessages := msgs'
                dispatchRounds := 1 }

/-! ## Provider adapters. -/

/-- One content block of a native Anthropic response, as far as the
adapter inspects it: its `type` tag, and its `text` field when that
field is present and is a string (`isTextBlock` checks
`block.type === "text" && typeof block.text === "string"`). -/
structure AnthropicBlock where
  type : String
  text : Option String

/-- `isTextBlock` of `src/llm/anthropic.ts`. -/
def isTextBlock (block : AnthropicBlock) : Bool :=
  block.type == "text" && block.text.isSome

/-- `Claude.chat` (`src/llm/anthropic.ts` lines 14–33), applied to the
content-block list of the native response the endpoint returned: select
the first text block (empty string if none) and return a single choice
whose `tool_calls` is the literal empty list. -/
def ClaudeChat (nativeContent : List AnthropicBlock) : ModelResponse :=
  let firstTextBlock := nativeContent.find? isTextBlock
  { choices := [{ message :=
      { content := some ((firstTextBlock.map (fun b => b.text.getD "")).getD "")
        tool_calls := some [] } }] }

/-- The tool-use blocks of a native Anthropic response — the tool calls
the provider produced natively. -/
def anthropicNativeToolUses (nativeContent : List AnthropicBlock) : List AnthropicBlock :=
  nativeContent.filter (fun b => b.type == "tool_use")

/-- `GPT.chat` (`src/llm/gpt.ts`): the native OpenAI chat completion is
returned unchanged. -/
def GPTChat (nativeResponse : ModelResponse) : ModelResponse :=
  nativeResponse

/-! ## Derived observations used in theorem statements. -/

/-- The two messages one successful loop iteration appends for a tool
call (empty when the call would not resolve/parse — under a successful
dispatch that case cannot occur). -/
def dispatchPairOf (o : Orchestrator) (tc : ToolCall) : List Message :=
  match resolveTool o tc.function.name, jsonParse tc.function.arguments with
  | .ok (_, server, toolName), some args =>
    [.assistant [tc],
     .tool tc.id (normalizeToolContent (server.callTool toolName args).content)]
  | _, _ => []

/-- The backend invocation one successful loop iteration performs. -/
def invocationOf (o : Orchestrator) (tc : ToolCall) : Invocation :=
  match resolveTool o tc.function.name, jsonParse tc.function.arguments with
  | .ok (serverName, _, toolName), some args =>
    { serverName := serverName, toolName := toolName, args := args }
  | _, _ => { serverName := "", toolName := "", args := .undef }

/-- `true` when every character of `s` survives sanitization and is not
the `_` separator (letters, digits, `-`). -/
def serverNameSafe (s : String) : Bool :=
  s.data.all (fun c => c.isAlphanum || c == '-')

/-! ## Concrete fixtures used in counterexamples and witnesses. -/

/-- A model oracle that always returns the same response. -/
def constLLM (resp : ModelResponse) : LLM :=
  { chat := fun _ _ _ => resp }

/-- A one-choice response carrying a single tool call. -/
def oneCallResponse (content : Option String) (id qname args : String) : ModelResponse :=
  { choices := [{ message :=
      { content := content, tool_calls := some [{ id := id, function := { name := qname, arguments := args } }] } }] }

/-- A model oracle that always answers with plain text and no tool calls. -/
def sampleTextLLM : LLM :=
  constLLM { choices := [{ message := { content := some "plain", tool_calls := none } }] }

/-- A backend advertising `ts` whose every call returns the string
`ran:` followed by the forwarded tool name. -/
def echoBackend (ts : List NativeTool) : Backend :=
  { tools := ts, callTool := fun n _ => { content := .str ("ran:" ++ n) } }

/-- Orchestrator with no registered servers, used for tool-free runs. -/
def fx0O : Orchestrator := mkOrchestrator sampleTextLLM "sys"

/-- The run of `fx0O` on query `q`: one model call, no dispatch. -/
def fx0Result : QueryResult :=
  { answer := "plain"
    chats := [{ messages := [.system "sys", .user "q"], tools := [], toolChoice := "auto" }]
    invocations := []
    finalMessages := [.system "sys", .user "q"]
    dispatchRounds := 0 }

/-- A model that requests the tool `srv_tool` in every response. -/
def fx1LLM : LLM := constLLM (oneCallResponse (some "thinking") "id1" "srv_tool" "\x7b\x7d")

/-- One server `srv` with one tool `tool`, driven by `fx1LLM`. -/
def fx1O : Orchestrator :=
  registerServer (mkOrchestrator fx1LLM "sys") "srv"
    (echoBackend [{ name := "tool", description := "d", inputSchema := .obj [] }])

/-- The single tool call `fx1LLM` issues. -/
def fx1Tc : ToolCall := { id := "id1", function := { name := "srv_tool", arguments := "\x7b\x7d" } }

/-- Message history after the one dispatch round of `fx1O`. -/
def fx1Msgs : List Message :=
  [.system "sys", .user "q", .assistant [fx1Tc], .tool "id1" "ran:tool"]

/-- The run of `fx1O` on query `q`. -/
def fx1Result : QueryResult :=
  { answer := "thinking"
    chats := [{ messages := [.system "sys", .user "q"], tools := fx1O.allFunctions, toolChoice := "auto" },
              { messages := fx1Msgs, tools := [], toolChoice := "auto" }]
    invocations := [{ serverName := "srv", toolName := "tool", args := .obj [] }]
    finalMessages := fx1Msgs
    dispatchRounds := 1 }

/-- Registry with colliding qualified names: server `a` exposing tool
`b_c` and server `a_b` exposing tool `c` both yield `a_b_c`. -/
def fx2O : Orchestrator :=
  registerServersFromConfig (mkOrchestrator sampleTextLLM "sys")
    [("a", echoBackend [{ name := "b_c", description := "d1", inputSchema := .obj [] }]),
     ("a_b", echoBackend [{ name := "c", description := "d2", inputSchema := .obj [] }])]

/-- A model that requests the tool `my_srv_tool` in every response. -/
def fx3LLM : LLM := constLLM (oneCallResponse none "id1" "my_srv_tool" "\x7b\x7d")

/-- One server whose name `my_srv` contains the separator, driven by a
model that calls its only tool. -/
def fx3O : Orchestrator :=
  registerServer (mkOrchestrator fx3LLM "sys") "my_srv"
    (echoBackend [{ name := "tool", description := "d", inputSchema := .obj [] }])

/-- Backends for the two-server registration scenario (`files`/`math`,
both exposing a native tool `read`). -/
def wFiles : Backend := echoBackend [{ name := "read", description := "d1", inputSchema := .obj [] }]

/-- Second backend of the scenario. -/
def wMath : Backend := echoBackend [{ name := "read", description := "d2", inputSchema := .obj [] }]

/-- The two-server configuration. -/
def wcfgs : List (String × Backend) := [("files", wFiles), ("math", wMath)]

/-- Two backends for the duplicate-registration scenario. -/
def fx6B1 : Backend := echoBackend [{ name := "t1", description := "d1", inputSchema := .obj [] }]

/-- Second backend registered under the same name. -/
def fx6B2 : Backend := echoBackend [{ name := "t2", description := "d2", inputSchema := .obj [] }]

/-- Register `s` twice: the second registration is not rejected. -/
def fx6O : Orchestrator :=
  registerServer (registerServer (mkOrchestrator sampleTextLLM "sys") "s" fx6B1) "s" fx6B2

/-- A model that requests `srv_read_file` in every response. -/
def fx7LLM : LLM := constLLM (oneCallResponse none "id1" "srv_read_file" "\x7b\x7d")

/-- Backend whose native tool name `read.file` is not identifier-safe. -/
def fx7B : Backend := echoBackend [{ name := "read.file", description := "d", inputSchema := .obj [] }]

/-- Server `srv` exposing `read.file`, driven by `fx7LLM`. -/
def fx7O : Orchestrator := registerServer (mkOrchestrator fx7LLM "sys") "srv" fx7B

/-- A model that requests the unregistered tool `ghost_tool`. -/
def fx8LLM : LLM := constLLM (oneCallResponse none "id9" "ghost_tool" "\x7b\x7d")

/-- Orchestrator with an empty registry, driven by `fx8LLM`. -/
def fx8O : Orchestrator := mkOrchestrator fx8LLM "sys"

/-! ## Helper lemmas. -/

theorem mapGet_mapSet_self (k : String) (v : MCPServer) :
    ∀ m : List (String × MCPServer), mapGet (mapSet m k v) k = some v := by
  intro m
  induction m with
  | nil => simp [mapSet, mapGet]
  | cons p rest ih =>
    by_cases h : p.1 = k
    · simp [mapSet, mapGet, h]
    · cases hr : rest.any (fun q => q.1 == k) with
      | true =>
        have hms : mapSet rest k v = rest.map (fun q => if q.1 == k then (k, v) else q) := by
          simp [mapSet, hr]
        have hset : mapSet (p :: rest) k v
            = p :: rest.map (fun q => if q.1 == k then (k, v) else q) := by
          simp [mapSet, List.any_cons, hr, h]
        rw [hset]
        rw [hms] at ih
        simpa [mapGet, List.find?_cons, h] using ih
      | false =>
        have hms : mapSet rest k v = rest ++ [(k, v)] := by simp [mapSet, hr]
        have hany : (p :: rest).any (fun q => q.1 == k) = false := by
          simp [List.any_cons, h, hr]
        simp only [mapSet, hany, Bool.false_eq_true, if_false]
        rw [hms] at ih
        simpa [mapGet, List.find?_cons, h] using ih

theorem find?_key_map_set (k k' : String) (v : MCPServer) (hne : k' ≠ k) :
    ∀ m : List (String × MCPServer),
      (m.map (fun q => if q.1 == k then (k, v) else q)).find? (fun p => p.1 == k')
        = m.find? (fun p => p.1 == k') := by
  intro m
  have h2 : (k == k') = false := by
    simp only [beq_eq_false_iff_ne, ne_eq]
    exact fun h => hne h.symm
  have hpred : ((fun p : String × MCPServer => p.1 == k')
      ∘ (fun q => if q.1 == k then (k, v) else q)) = fun p => p.1 == k' := by
    funext q
    by_cases hq : q.1 = k
    · have h3 : (q.1 == k') = false := by
        rw [hq]
        exact h2
      simp [hq, h2, h3]
    · simp [hq]
  rw [List.find?_map, hpred]
  cases hfind : m.find? (fun p => p.1 == k') with
  | none => rfl
  | some q₀ =>
    have hq₀ := List.find?_some hfind
    simp only [beq_iff_eq] at hq₀
    have hq₀k : ¬ q₀.1 = k := by
      intro hk
      exact hne (by rw [← hq₀, hk])
    simp [hq₀k]

theorem mapGet_append_single_ne (k k' : String) (v : MCPServer) (hne : k' ≠ k) :
    ∀ m : List (String × MCPServer), mapGet (m ++ [(k, v)]) k' = mapGet m k' := by
  intro m
  have h2 : (k == k') = false := by
    simp only [beq_eq_false_iff_ne, ne_eq]
    exact fun h => hne h.symm
  induction m with
  | nil => simp [mapGet, h2]
  | cons p rest ih =>
    by_cases hp : p.1 = k'
    · simp [mapGet, List.find?_cons, hp]
    · have h3 : (p.1 == k') = false := by simpa using hp
      simpa [mapGet, List.find?_cons, h3] using ih

theorem mapGet_mapSet_ne (k k' : String) (v : MCPServer) (hne : k' ≠ k)
    (m : List (String × MCPServer)) : mapGet (mapSet m k v) k' = mapGet m k' := by
  by_cases h : m.any (fun p => p.1 == k)
  · have hset : mapSet m k v = m.map (fun q => if q.1 == k then (k, v) else q) := by
      simp [mapSet, h]
    rw [hset]
    simp only [mapGet]
    rw [find?_key_map_set k k' v hne m]
  · have hset : mapSet m k v = m ++ [(k, v)] := by
      simp only [mapSet, if_neg h]
    rw [hset]
    exact mapGet_append_single_ne k k' v hne m

theorem registerServer_allFunctions (o : Orchestrator) (n : String) (b : Backend) :
    (registerServer o n b).allFunctions = o.allFunctions ++ buildFunctions n b.tools := rfl

theorem registerAll_allFunctions :
    ∀ (cfgs : List (String × Backend)) (o : Orchestrator),
      (registerServersFromConfig o cfgs).allFunctions
        = o.allFunctions ++ cfgs.flatMap (fun p => buildFunctions p.1 p.2.tools) := by
  intro cfgs
  induction cfgs with
  | nil => intro o; simp [registerServersFromConfig]
  | cons p rest ih =>
    intro o
    cases p with
    | mk n b =>
      simp [registerServersFromConfig, ih, registerServer, List.append_assoc]

theorem mapGet_registerAll_not_mem (n : String) :
    ∀ (cfgs : List (String × Backend)) (o : Orchestrator),
      n ∉ cfgs.map Prod.fst →
      mapGet (registerServersFromConfig o cfgs).servers n = mapGet o.servers n := by
  intro cfgs
  induction cfgs with
  | nil => intro o _; rfl
  | cons p rest ih =>
    intro o hn
    cases p with
    | mk n₀ b₀ =>
      simp only [List.map_cons, List.mem_cons, not_or] at hn
      have h1 := ih (registerServer o n₀ b₀) hn.2
      rw [registerServersFromConfig, h1]
      exact mapGet_mapSet_ne n₀ n _ hn.1 o.servers

theorem mapGet_registerAll_mem :
    ∀ (cfgs : List (String × Backend)) (o : Orchestrator) (n : String) (b : Backend),
      (n, b) ∈ cfgs → (cfgs.map Prod.fst).Nodup →
      mapGet (registerServersFromConfig o cfgs).servers n
        = some { name := n, functions := buildFunctions n b.tools, callTool := b.callTool } := by
  intro cfgs
  induction cfgs with
  | nil => intro o n b h _; cases h
  | cons p rest ih =>
    intro o n b hmem hnodup
    cases p with
    | mk n₀ b₀ =>
      simp only [List.map_cons, List.nodup_cons] at hnodup
      rcases List.mem_cons.mp hmem with heq | hrest
      · cases heq
        rw [registerServersFromConfig]
        rw [mapGet_registerAll_not_mem n rest _ hnodup.1]
        exact mapGet_mapSet_self n _ o.servers
      · exact ih (registerServer o n₀ b₀) n b hrest hnodup.2

/-! String-level lemmas about the sanitized qualified names. -/

theorem sanitize_data (s : String) : (sanitize s).data = s.data.map sanChar := rfl

theorem sanChar_safe (c : Char) (h : (c.isAlphanum || c == '-') = true) : sanChar c = c := by
  rcases Bool.or_eq_true_iff.mp h with h1 | h1
  · simp [sanChar, h1]
  · simp [sanChar, beq_iff_eq.mp h1]

theorem safe_ne_underscore (c : Char) (h : (c.isAlphanum || c == '-') = true) : c ≠ '_' := by
  intro hc
  subst hc
  exact absurd h (by decide)

theorem map_sanChar_of_safe :
    ∀ l : List Char, (∀ x ∈ l, (x.isAlphanum || x == '-') = true) → l.map sanChar = l := by
  intro l
  induction l with
  | nil => intro _; rfl
  | cons c cs ih =>
    intro hall
    have hc := hall c (List.mem_cons_self c cs)
    have hcs : ∀ x ∈ cs, (x.isAlphanum || x == '-') = true :=
      fun x hx => hall x (List.mem_cons_of_mem c hx)
    simp [sanChar_safe c hc, ih hcs]

theorem serverNameSafe_map_sanChar (s : String) (h : serverNameSafe s = true) :
    s.data.map sanChar = s.data :=
  map_sanChar_of_safe s.data (List.all_eq_true.mp h)

theorem serverNameSafe_no_underscore (s : String) (h : serverNameSafe s = true) :
    ∀ c ∈ s.data, c ≠ '_' :=
  fun c hc => safe_ne_underscore c (List.all_eq_true.mp h c hc)

theorem qualifiedName_data (s t : String) :
    (qualifiedName s t).data = s.data.map sanChar ++ '_' :: t.data.map sanChar := by
  show ((s ++ "_" ++ t).data.map sanChar) = _
  rw [String.data_append, String.data_append]
  show ((s.data ++ ['_'] ++ t.data).map sanChar) = _
  rw [List.map_append, List.map_append]
  simp [sanChar]

theorem qualifiedName_data_safe (s t : String) (hs : serverNameSafe s = true) :
    (qualifiedName s t).data = s.data ++ '_' :: (sanitize t).data := by
  rw [qualifiedName_data, serverNameSafe_map_sanChar s hs, sanitize_data]

theorem takeWhile_append_underscore :
    ∀ (u v : List Char), (∀ c ∈ u, c ≠ '_') →
      (u ++ '_' :: v).takeWhile (fun c => c ≠ '_') = u := by
  intro u
  induction u with
  | nil => intro v _; simp [List.takeWhile_cons]
  | cons c cs ih =>
    intro v hall
    have hc : c ≠ '_' := hall c (List.mem_cons_self c cs)
    have hcs : ∀ x ∈ cs, x ≠ '_' := fun x hx => hall x (List.mem_cons_of_mem c hx)
    simp only [List.cons_append, List.takeWhile_cons]
    rw [if_pos (by simpa using hc), ih v hcs]

theorem splitHead_qualified (s t : String) (hs : serverNameSafe s = true) :
    splitHeadUnderscore (qualifiedName s t) = s := by
  show (⟨(qualifiedName s t).data.takeWhile (fun c => c ≠ '_')⟩ : String) = s
  rw [qualifiedName_data_safe s t hs,
    takeWhile_append_underscore s.data _ (serverNameSafe_no_underscore s hs)]

theorem replaceFirstGo_prefix (p rest : List Char) (hp : p ≠ []) :
    replaceFirstGo p (p ++ rest) = rest := by
  cases p with
  | nil => exact absurd rfl hp
  | cons c cs =>
    have hpre : (c :: cs).isPrefixOf (c :: (cs ++ rest)) = true := by
      rw [← List.cons_append]
      exact List.isPrefixOf_iff_prefix.mpr (List.prefix_append (c :: cs) rest)
    show replaceFirstGo (c :: cs) (c :: (cs ++ rest)) = rest
    rw [replaceFirstGo, if_pos hpre]
    exact List.drop_left (c :: cs) rest

theorem replaceFirst_qualified (s t : String) (hs : serverNameSafe s = true) :
    replaceFirst (qualifiedName s t) (s ++ "_") = sanitize t := by
  have hne : (s ++ "_").isEmpty = false := by
    cases he : (s ++ "_").isEmpty with
    | false => rfl
    | true =>
      have := (String.isEmpty_iff (s ++ "_")).mp he
      have hd : (s ++ "_").data = s.data ++ ['_'] := String.data_append s "_"
      rw [this] at hd
      exact absurd hd.symm (by simp)
  rw [replaceFirst, hne]
  simp only [Bool.false_eq_true, if_false]
  have hdata : (qualifiedName s t).data = (s ++ "_").data ++ (sanitize t).data := by
    rw [qualifiedName_data_safe s t hs, String.data_append]
    simp
  rw [hdata, replaceFirstGo_prefix _ _ (by
    intro h
    have : (s ++ "_").data = s.data ++ ['_'] := String.data_append s "_"
    rw [h] at this
    exact absurd this.symm (by simp))]

theorem append_underscore_inj :
    ∀ (u₁ : List Char) (v₁ : List Char) (u₂ : List Char) (v₂ : List Char),
      (∀ c ∈ u₁, c ≠ '_') → (∀ c ∈ u₂, c ≠ '_') →
      u₁ ++ '_' :: v₁ = u₂ ++ '_' :: v₂ → u₁ = u₂ ∧ v₁ = v₂ := by
  intro u₁
  induction u₁ with
  | nil =>
    intro v₁ u₂ v₂ _ h₂ heq
    cases u₂ with
    | nil => simpa using heq
    | cons c cs =>
      exfalso
      have : '_' = c := by simpa using congrArg (fun l => l.headD ' ') heq
      exact h₂ c (List.mem_cons_self c cs) this.symm
  | cons c cs ih =>
    intro v₁ u₂ v₂ h₁ h₂ heq
    cases u₂ with
    | nil =>
      exfalso
      have : c = '_' := by simpa using congrArg (fun l => l.headD ' ') heq
      exact h₁ c (List.mem_cons_self c cs) this
    | cons d ds =>
      simp only [List.cons_append, List.cons.injEq] at heq
      have hcs : ∀ x ∈ cs, x ≠ '_' := fun x hx => h₁ x (List.mem_cons_of_mem c hx)
      have hds : ∀ x ∈ ds, x ≠ '_' := fun x hx => h₂ x (List.mem_cons_of_mem d hx)
      obtain ⟨h1, h2⟩ := ih v₁ ds v₂ hcs hds heq.2
      exact ⟨by rw [heq.1, h1], h2⟩

/-- The descriptor built for native tool `t` of server `n`. -/
def descriptorOf (n : String) (t : NativeTool) : ChatTool :=
  { type := "function"
    function :=
      { name := qualifiedName n t.name
        description := "[" ++ n ++ "] " ++ t.description
        parameters := t.inputSchema } }

theorem descriptorOf_mem_buildFunctions (n : String) (t : NativeTool)
    (ts : List NativeTool) (ht : t ∈ ts) : descriptorOf n t ∈ buildFunctions n ts :=
  List.mem_map_of_mem _ ht

theorem resolveTool_registerAll
    (cfgs : List (String × Backend)) (llm : LLM) (sp : String)
    (n : String) (b : Backend) (t : NativeTool)
    (hmem : (n, b) ∈ cfgs)
    (ht : t ∈ b.tools)
    (hnodup : (cfgs.map Prod.fst).Nodup)
    (hsafe : ∀ p ∈ cfgs, serverNameSafe p.1 = true) :
    resolveTool (registerServersFromConfig (mkOrchestrator llm sp) cfgs)
        (qualifiedName n t.name)
      = .ok (n,
          { name := n, functions := buildFunctions n b.tools, callTool := b.callTool },
          sanitize t.name) := by
  set o := registerServersFromConfig (mkOrchestrator llm sp) cfgs with ho
  have hnsafe : serverNameSafe n = true := hsafe (n, b) hmem
  have hdmem : descriptorOf n t ∈ o.allFunctions := by
    rw [ho, registerAll_allFunctions]
    simp only [mkOrchestrator, List.nil_append]
    exact List.mem_flatMap.mpr ⟨(n, b), hmem, descriptorOf_mem_buildFunctions n t b.tools ht⟩
  obtain ⟨tm, hfind⟩ :
      ∃ tm, o.allFunctions.find?
        (fun f => f.function.name == qualifiedName n t.name) = some tm := by
    cases hf : o.allFunctions.find? (fun f => f.function.name == qualifiedName n t.name) with
    | some tm => exact ⟨tm, rfl⟩
    | none =>
      exfalso
      have hno := List.find?_eq_none.mp hf _ hdmem
      simp only [beq_iff_eq] at hno
      exact hno rfl
  have hname : tm.function.name = qualifiedName n t.name := by
    have := List.find?_some hfind
    simpa using this
  have hget : mapGet o.servers n
      = some { name := n, functions := buildFunctions n b.tools, callTool := b.callTool } :=
    mapGet_registerAll_mem cfgs (mkOrchestrator llm sp) n b hmem hnodup
  simp only [resolveTool, hfind, hname, splitHead_qualified n t.name hnsafe, hget,
    replaceFirst_qualified n t.name hnsafe]

theorem dispatchCalls_append (o : Orchestrator) :
    ∀ (l₁ l₂ : List ToolCall) (msgs : List Message) (invs : List Invocation),
      dispatchCalls o (l₁ ++ l₂) msgs invs
        = (dispatchCalls o l₁ msgs invs).bind (fun r => dispatchCalls o l₂ r.1 r.2) := by
  intro l₁
  induction l₁ with
  | nil => intro l₂ msgs invs; rfl
  | cons tc rest ih =>
    intro l₂ msgs invs
    simp only [List.cons_append, dispatchCalls]
    cases hres : resolveTool o tc.function.name with
    | error e => simp [Except.bind]
    | ok r =>
      obtain ⟨sn, server, tn⟩ := r
      cases hargs : jsonParse tc.function.arguments with
      | none => simp [Except.bind]
      | some args =>
        simp only [Except.bind]
        exact ih l₂ _ _

theorem dispatchCalls_ok_shape (o : Orchestrator) :
    ∀ (calls : List ToolCall) (msgs : List Message) (invs : List Invocation)
      (out : List Message × List Invocation),
      dispatchCalls o calls msgs invs = .ok out →
      out.1 = msgs ++ (calls.map (dispatchPairOf o)).flatten ∧
      out.2 = invs ++ calls.map (invocationOf o) ∧
      ∀ tc ∈ calls, ∃ content, dispatchPairOf o tc = [.assistant [tc], .tool tc.id content] := by
  intro calls
  induction calls with
  | nil =>
    intro msgs invs out h
    simp only [dispatchCalls] at h
    cases h
    simp
  | cons tc rest ih =>
    intro msgs invs out h
    rw [dispatchCalls] at h
    cases hres : resolveTool o tc.function.name with
    | error e => rw [hres] at h; cases h
    | ok r =>
      obtain ⟨sn, server, tn⟩ := r
      rw [hres] at h
      cases hargs : jsonParse tc.function.arguments with
      | none => rw [hargs] at h; cases h
      | some args =>
        rw [hargs] at h
        simp only at h
        have hpair : dispatchPairOf o tc
            = [.assistant [tc],
               .tool tc.id (normalizeToolContent (server.callTool tn args).content)] := by
          simp [dispatchPairOf, hres, hargs]
        have hinv : invocationOf o tc
            = { serverName := sn, toolName := tn, args := args } := by
          simp [invocationOf, hres, hargs]
        obtain ⟨h1, h2, h3⟩ := ih _ _ out h
        refine ⟨?_, ?_, ?_⟩
        · rw [h1]
          simp [hpair, List.append_assoc]
        · rw [h2]
          simp [hinv, List.append_assoc]
        · intro c hc
          rcases List.mem_cons.mp hc with hceq | hcr
          · exact ⟨_, hceq ▸ hpair⟩
          · exact h3 c hcr

/-! ## Claim theorems. -/

/-- C6 counterexample: registering the name `s` a second time raises no
`DuplicateServerError` — `registerServer` is total — and the registry
changes: the map entry for `s` is overwritten with the second backend
and the flattened list holds the descriptors of both registrations. -/
theorem C6_counterexample :
    fx6O.servers.map Prod.fst = ["s"] ∧
    fx6O.allFunctions.map (fun f => f.function.name) = ["s_t1", "s_t2"] ∧
    (mapGet fx6O.servers "s").map (fun sv => sv.functions.map (fun f => f.function.name))
      = some ["s_t2"] :=
  ⟨rfl, rfl, rfl⟩

/-- C6 (amended): registering a server under an already-registered name
does not fail; the new descriptors are appended to the flattened list
(the old ones remain) and the server-map entry is replaced by the new
binding. -/
theorem C6_register_overwrites (o : Orchestrator) (n : String) (b : Backend) :
    (registerServer o n b).allFunctions = o.allFunctions ++ buildFunctions n b.tools ∧
    mapGet (registerServer o n b).servers n
      = some { name := n, functions := buildFunctions n b.tools, callTool := b.callTool } :=
  ⟨rfl, mapGet_mapSet_self n _ o.servers⟩

/-- C10: tool results are normalized to string message content — a
string result passes through unchanged, an absent (`undefined`/`null`)
result becomes `JSON.stringify("")`, i.e. the two-character text `""`,
any other structured result is JSON-serialized; and every message a
successful dispatch appends is either an assistant tool-call message or
a tool message whose content is the normalization of some backend
result. -/
theorem C10_tool_result_normalization (s : String) (v : JsValue)
    (hv : (∀ t, v ≠ .str t) ∧ v ≠ .undef ∧ v ≠ .null) :
    normalizeToolContent (.str s) = s ∧
    normalizeToolContent .undef = "\"\"" ∧
    normalizeToolContent .null = "\"\"" ∧
    normalizeToolContent v = stringifyVal v ∧
    (∀ (o : Orchestrator) (calls : List ToolCall) (msgs : List Message)
        (invs : List Invocation) (out : List Message × List Invocation),
        dispatchCalls o calls msgs invs = .ok out →
        ∀ m ∈ out.1, m ∈ msgs ∨ (∃ tc ∈ calls, m = .assistant [tc]) ∨
          ∃ tc ∈ calls, ∃ res : ToolResult,
            m = .tool tc.id (normalizeToolContent res.content)) := by
  obtain ⟨hs, hu, hn⟩ := hv
  refine ⟨rfl, rfl, rfl, ?_, ?_⟩
  · cases v with
    | str t => exact absurd rfl (hs t)
    | undef => exact absurd rfl hu
    | null => exact absurd rfl hn
    | bool b => rfl
    | num n => rfl
    | arr l => rfl
    | obj l => rfl
  · intro o calls msgs invs out hok m hm
    obtain ⟨h1, _, _⟩ := dispatchCalls_ok_shape o calls msgs invs out hok
    rw [h1] at hm
    rcases List.mem_append.mp hm with hmsgs | hflat
    · exact Or.inl hmsgs
    · obtain ⟨pair, hpairmem, hmpair⟩ := List.mem_flatten.mp hflat
      obtain ⟨tc, htc, hpeq⟩ := List.mem_map.mp hpairmem
      right
      subst hpeq
      revert hmpair
      unfold dispatchPairOf
      cases hres : resolveTool o tc.function.name with
      | error e => intro hmp; cases hmp
      | ok r =>
        obtain ⟨sn, server, tn⟩ := r
        cases hargs : jsonParse tc.function.arguments with
        | none => intro hmp; cases hmp
        | some args =>
          intro hmp
          rcases List.mem_cons.mp hmp with h | h
          · exact Or.inl ⟨tc, htc, h⟩
          · rcases List.mem_cons.mp h with h2 | h2
            · exact Or.inr ⟨tc, htc, server.callTool tn args, h2⟩
            · cases h2

/-- C10 witness: evaluating the normalization at an absent result and at
a structured result. -/
theorem C10_witness :
    normalizeToolContent (.arr [.num 1]) = stringifyVal (.arr [.num 1]) ∧
    normalizeToolContent .undef = "\"\"" :=
  ⟨(C10_tool_result_normalization "hi" (.arr [.num 1])
      ⟨fun t h => JsValue.noConfusion h, fun h => JsValue.noConfusion h,
       fun h => JsValue.noConfusion h⟩).2.2.2.1,
   (C10_tool_result_normalization "hi" (.arr [.num 1])
      ⟨fun t h => JsValue.noConfusion h, fun h => JsValue.noConfusion h,
       fun h => JsValue.noConfusion h⟩).2.1⟩

/-- C4 counterexample: a native Anthropic response with one `tool_use`
block and one text block natively produced a tool call, yet the Claude
adapter returns `tool_calls` as the literal empty list, so the claim
that it reports no tool calls only if none were produced natively is
false. -/
theorem C4_counterexample :
    (anthropicNativeToolUses
      [{ type := "tool_use", text := none }, { type := "text", text := some "hi" }]).length = 1 ∧
    ClaudeChat [{ type := "tool_use", text := none }, { type := "text", text := some "hi" }]
      = { choices := [{ message := { content := some "hi", tool_calls := some [] } }] } :=
  ⟨rfl, rfl⟩

/-- C4 (amended): the GPT adapter returns the native response
unchanged; the Claude adapter exposes exactly one choice whose content
is the text of the first text block (empty string when there is none)
and always reports an empty `tool_calls` list, even when the native
response contains `tool_use` blocks. -/
theorem C4_adapter_normalization :
    (∀ native : List AnthropicBlock,
      (ClaudeChat native).choices.map (fun c => c.message.tool_calls) = [some []]) ∧
    (∀ native : List AnthropicBlock, native.find? isTextBlock = none →
      (ClaudeChat native).choices.map (fun c => c.message.content) = [some ""]) ∧
    (∀ (native : List AnthropicBlock) (b : AnthropicBlock),
      native.find? isTextBlock = some b →
      (ClaudeChat native).choices.map (fun c => c.message.content) = [some (b.text.getD "")]) ∧
    (∀ r : ModelResponse, GPTChat r = r) := by
  refine ⟨fun native => rfl, ?_, ?_, fun r => rfl⟩
  · intro native h
    simp [ClaudeChat, h]
  · intro native b h
    simp [ClaudeChat, h]

/-- C4 witness: the Claude adapter applied to a concrete native
response whose first text block says `hi`. -/
theorem C4_witness :
    ([{ type := "text", text := some "hi" }] : List AnthropicBlock).find? isTextBlock
      = some { type := "text", text := some "hi" } ∧
    (ClaudeChat [{ type := "text", text := some "hi" }]).choices.map
      (fun c => c.message.content) = [some "hi"] :=
  ⟨rfl, C4_adapter_normalization.2.2.1 [{ type := "text", text := some "hi" }]
    { type := "text", text := some "hi" } rfl⟩

/-- C1 counterexample: `fx1LLM` requests a tool in every response — in
particular in both responses recorded during the run — yet the query
terminates successfully after exactly one dispatch phase and two model
calls, not one dispatch round per tool-requesting response. -/
theorem C1_counterexample :
    (processQuery fx1O "q").map QueryResult.dispatchRounds = .ok 1 ∧
    (processQuery fx1O "q").map (fun r => r.chats.length) = .ok 2 ∧
    (processQuery fx1O "q").map (fun r =>
        r.chats.map (fun cr =>
          (fx1O.llm.chat cr.messages cr.tools cr.toolChoice).choices.map
            (fun c => (c.message.tool_calls.getD []).length)))
      = .ok [[1], [1]] :=
  ⟨rfl, rfl, rfl⟩

/-- C1 (amended): `processQuery` performs at most one dispatch phase —
the tool calls of the first model response are dispatched once and a
single follow-up model call produces the answer; it never loops back,
so a model that requests tools in all of its responses still yields
exactly one dispatch round and exactly two model calls. -/
theorem C1_at_most_one_round (o : Orchestrator) (q : String) (r : QueryResult)
    (h : processQuery o q = .ok r) :
    r.dispatchRounds ≤ 1 ∧ r.chats.length = r.dispatchRounds + 1 := by
  simp only [processQuery] at h
  split at h
  · exact Except.noConfusion h
  · split at h
    · injection h with h2
      subst h2
      exact ⟨by simp, by simp⟩
    · split at h
      · exact Except.noConfusion h
      · split at h
        · exact Except.noConfusion h
        · injection h with h2
          subst h2
          exact ⟨by simp, by simp⟩

/-- C1 witness: the tool-free run of `fx0O` terminates with zero
dispatch rounds and one model call. -/
theorem C1_witness :
    processQuery fx0O "q" = .ok fx0Result ∧
    fx0Result.dispatchRounds ≤ 1 ∧ fx0Result.chats.length = fx0Result.dispatchRounds + 1 :=
  ⟨rfl, C1_at_most_one_round fx0O "q" fx0Result rfl⟩

/-- C5 counterexample: in the run of `fx1O` the second model call is
made with an empty tool list although the registry holds one
descriptor, so the claim that every round passes the complete flattened
tool set is false. -/
theorem C5_counterexample :
    (processQuery fx1O "q").map (fun r => r.chats.map (fun cr => (cr.tools, cr.toolChoice)))
      = .ok [(fx1O.allFunctions, "auto"), ([], "auto")] ∧
    fx1O.allFunctions.length = 1 :=
  ⟨rfl, rfl⟩

/-- C5 (amended): the first model call receives the seeded history, the
complete flattened tool set and toolChoice `auto`; the second model
call, when a dispatch happened, receives the full updated history but
an empty tool list (the defaulted `chat(messages)` arguments). -/
theorem C5_chat_arguments (o : Orchestrator) (q : String) (r : QueryResult)
    (h : processQuery o q = .ok r) :
    r.chats.head? = some { messages := [.system o.systemPrompt, .user q],
                           tools := o.allFunctions, toolChoice := "auto" } ∧
    (r.chats.length = 1 ∨
      r.chats = [{ messages := [.system o.systemPrompt, .user q],
                   tools := o.allFunctions, toolChoice := "auto" },
                 { messages := r.finalMessages, tools := [], toolChoice := "auto" }]) := by
  simp only [processQuery] at h
  split at h
  · exact Except.noConfusion h
  · split at h
    · injection h with h2
      subst h2
      exact ⟨rfl, Or.inl rfl⟩
    · split at h
      · exact Except.noConfusion h
      · split at h
        · exact Except.noConfusion h
        · injection h with h2
          subst h2
          exact ⟨rfl, Or.inr rfl⟩

/-- C5 witness: the tool-free run of `fx0O` makes its single model call
with the seeded history, the (empty) flattened tool set and `auto`. -/
theorem C5_witness :
    processQuery fx0O "q" = .ok fx0Result ∧
    fx0Result.chats.head? = some { messages := [.system "sys", .user "q"],
                                   tools := fx0O.allFunctions, toolChoice := "auto" } :=
  ⟨rfl, (C5_chat_arguments fx0O "q" fx0Result rfl).1⟩

/-- C3 counterexample: server `my_srv` contains the separator after
sanitization; its descriptor `my_srv_tool` resolves by splitting on the
first underscore, yielding the non-existent server `my`, so resolution
fails instead of returning the contributing server, and the whole query
fails. -/
theorem C3_counterexample :
    fx3O.allFunctions.map (fun f => f.function.name) = ["my_srv_tool"] ∧
    resolveTool fx3O "my_srv_tool" = .error (.unknownServer "my") ∧
    processQuery fx3O "q" = .error (.unknownServer "my") :=
  ⟨rfl, rfl, rfl⟩

/-- C3 (amended): when the configured server names are pairwise
distinct and consist only of identifier-safe characters other than the
separator `_`, resolving the qualified name of a descriptor yields the
registry binding of the server that contributed it, together with the
sanitized native tool name; for server names containing the separator
resolution can fail (see the counterexample). -/
theorem C3_resolution_returns_owner
    (cfgs : List (String × Backend)) (llm : LLM) (sp : String)
    (n : String) (b : Backend) (t : NativeTool)
    (hmem : (n, b) ∈ cfgs) (ht : t ∈ b.tools)
    (hnodup : (cfgs.map Prod.fst).Nodup)
    (hsafe : ∀ p ∈ cfgs, serverNameSafe p.1 = true) :
    resolveTool (registerServersFromConfig (mkOrchestrator llm sp) cfgs)
        (qualifiedName n t.name)
      = .ok (n,
          { name := n, functions := buildFunctions n b.tools, callTool := b.callTool },
          sanitize t.name) :=
  resolveTool_registerAll cfgs llm sp n b t hmem ht hnodup hsafe

/-- C3 witness: in the `files`/`math` scenario the descriptor
`math_read` resolves to the `math` binding. -/
theorem C3_witness :
    resolveTool (registerServersFromConfig (mkOrchestrator sampleTextLLM "sys") wcfgs)
        (qualifiedName "math" "read")
      = .ok ("math",
          { name := "math", functions := buildFunctions "math" wMath.tools,
            callTool := wMath.callTool },
          sanitize "read") :=
  C3_resolution_returns_owner wcfgs sampleTextLLM "sys" "math" wMath
    { name := "read", description := "d2", inputSchema := .obj [] }
    (show ("math", wMath) ∈ [("files", wFiles), ("math", wMath)] from
      List.Mem.tail _ (List.Mem.head _))
    (show _ ∈ [({ name := "read", description := "d2", inputSchema := .obj [] } : NativeTool)]
      from List.Mem.head _)
    (by have h : wcfgs.map Prod.fst = ["files", "math"] := rfl
        rw [h]
        decide)
    (by intro p hp
        cases hp with
        | head => decide
        | tail _ h2 =>
          cases h2 with
          | head => decide
          | tail _ h3 => cases h3)

/-- C7 counterexample: the native tool name `read.file` is sanitized
into `read_file` in the qualified name, and the dispatch forwards the
prefix-stripped sanitized name `read_file` — not the original native
name `read.file` — to the backend. -/
theorem C7_counterexample :
    fx7B.tools.map NativeTool.name = ["read.file"] ∧
    fx7O.allFunctions.map (fun f => f.function.name) = ["srv_read_file"] ∧
    (processQuery fx7O "q").map (fun r =>
        r.invocations.map (fun i => (i.serverName, i.toolName))) = .ok [("srv", "read_file")] ∧
    ("read_file" : String) ≠ "read.file" :=
  ⟨rfl, rfl, rfl, by decide⟩

/-- C7 (amended): under distinct separator-free identifier-safe server
names, invoking a qualified name forwards the sanitized native tool
name (prefix stripped) and the parsed arguments to the callTool
behaviour of the owning backend; the forwarded name equals the original
native name exactly when that name is already identifier-safe. -/
theorem C7_invoke_forwards_sanitized_name
    (cfgs : List (String × Backend)) (llm : LLM) (sp : String)
    (n : String) (b : Backend) (t : NativeTool)
    (id argsStr : String) (args : JsValue)
    (msgs : List Message) (invs : List Invocation)
    (hmem : (n, b) ∈ cfgs) (ht : t ∈ b.tools)
    (hnodup : (cfgs.map Prod.fst).Nodup)
    (hsafe : ∀ p ∈ cfgs, serverNameSafe p.1 = true)
    (hargs : jsonParse argsStr = some args) :
    dispatchCalls (registerServersFromConfig (mkOrchestrator llm sp) cfgs)
      [⟨id, ⟨qualifiedName n t.name, argsStr⟩⟩] msgs invs
      = .ok (msgs ++ [.assistant [⟨id, ⟨qualifiedName n t.name, argsStr⟩⟩],
              .tool id (normalizeToolContent (b.callTool (sanitize t.name) args).content)],
             invs ++ [{ serverName := n, toolName := sanitize t.name, args := args }]) := by
  rw [dispatchCalls]
  rw [resolveTool_registerAll cfgs llm sp n b t hmem ht hnodup hsafe]
  simp only [hargs]
  rw [dispatchCalls]

/-- C7 witness: invoking `math_read` forwards `read` with the parsed
empty-object arguments to the `math` backend. -/
theorem C7_witness :
    dispatchCalls (registerServersFromConfig (mkOrchestrator sampleTextLLM "sys") wcfgs)
      [⟨"i1", ⟨"math_read", "\x7b\x7d"⟩⟩] [] []
      = .ok ([.assistant [⟨"i1", ⟨"math_read", "\x7b\x7d"⟩⟩],
              .tool "i1" "ran:read"],
             [{ serverName := "math", toolName := "read", args := .obj [] }]) :=
  C7_invoke_forwards_sanitized_name wcfgs sampleTextLLM "sys" "math" wMath
    { name := "read", description := "d2", inputSchema := .obj [] }
    "i1" "\x7b\x7d" (.obj []) [] []
    (show ("math", wMath) ∈ [("files", wFiles), ("math", wMath)] from
      List.Mem.tail _ (List.Mem.head _))
    (show _ ∈ [({ name := "read", description := "d2", inputSchema := .obj [] } : NativeTool)]
      from List.Mem.head _)
    (by have h : wcfgs.map Prod.fst = ["files", "math"] := rfl
        rw [h]
        decide)
    (by intro p hp
        cases hp with
        | head => decide
        | tail _ h2 =>
          cases h2 with
          | head => decide
          | tail _ h3 => cases h3)
    rfl

/-- C8: when a model response contains a tool call whose qualified name
matches no registered descriptor (after any earlier calls of the
response dispatched successfully), the query aborts with the
unknown-tool error, and at the failing call the accumulated history is
exactly the history after the successful prefix — no assistant and no
tool message is appended for the failed call. -/
theorem C8_unknown_tool_aborts
    (o : Orchestrator) (q : String) (pre post : List ToolCall) (tc : ToolCall)
    (msgs : List Message) (invs : List Invocation)
    (hresp : ((o.llm.chat [.system o.systemPrompt, .user q] o.allFunctions "auto").choices.head?).map
        (fun c => c.message.tool_calls.getD []) = some (pre ++ tc :: post))
    (hpre : dispatchCalls o pre [.system o.systemPrompt, .user q] [] = .ok (msgs, invs))
    (habsent : ∀ f ∈ o.allFunctions, f.function.name ≠ tc.function.name) :
    processQuery o q = .error (.unknownTool tc.function.name) ∧
    dispatchCalls o (tc :: post) msgs invs = .error (.unknownTool tc.function.name) := by
  have hfind : o.allFunctions.find? (fun f => f.function.name == tc.function.name) = none :=
    List.find?_eq_none.mpr (fun f hf => by simpa using habsent f hf)
  have hres : resolveTool o tc.function.name = .error (.unknownTool tc.function.name) := by
    simp [resolveTool, hfind]
  have hdisp : dispatchCalls o (tc :: post) msgs invs
      = .error (.unknownTool tc.function.name) := by
    rw [dispatchCalls, hres]
  refine ⟨?_, hdisp⟩
  have hfull : dispatchCalls o (pre ++ tc :: post) [.system o.systemPrompt, .user q] []
      = .error (.unknownTool tc.function.name) := by
    rw [dispatchCalls_append, hpre]
    exact hdisp
  simp only [processQuery]
  cases hchoices : (o.llm.chat [.system o.systemPrompt, .user q] o.allFunctions "auto").choices with
  | nil =>
    rw [hchoices] at hresp
    exact Option.noConfusion hresp
  | cons choice rest =>
    rw [hchoices] at hresp
    simp only [List.head?_cons, Option.map_some] at hresp
    have hresp2 : choice.message.tool_calls.getD [] = pre ++ tc :: post :=
      Option.some.inj hresp
    obtain ⟨hd, tl, hlist⟩ : ∃ hd tl, pre ++ tc :: post = hd :: tl := by
      cases pre with
      | nil => exact ⟨tc, post, rfl⟩
      | cons p ps => exact ⟨p, ps ++ tc :: post, rfl⟩
    simp only [hresp2, hlist]
    rw [← hlist, hfull]

/-- C8 witness: against an empty registry, a model response calling
`ghost_tool` makes the query fail with the unknown-tool error while the
dispatch at the failing call leaves the seeded history untouched. -/
theorem C8_witness :
    processQuery fx8O "q" = .error (.unknownTool "ghost_tool") ∧
    dispatchCalls fx8O [⟨"id9", ⟨"ghost_tool", "\x7b\x7d"⟩⟩]
        [.system "sys", .user "q"] []
      = .error (.unknownTool "ghost_tool") :=
  C8_unknown_tool_aborts fx8O "q" [] [] ⟨"id9", ⟨"ghost_tool", "\x7b\x7d"⟩⟩
    [.system "sys", .user "q"] [] rfl rfl
    (fun f hf => absurd hf (List.not_mem_nil f))

/-- C9: every successful dispatch processes the tool calls of the model
response strictly in the order returned, appending for each call
exactly one assistant message carrying that single call followed by one
tool message whose correlation id equals the id of the call; in
particular a single-call response grows the history by exactly those
two messages before the next model call. -/
theorem C9_sequential_pairs (o : Orchestrator) (q : String) (tc : ToolCall) (r : QueryResult)
    (hresp : ((o.llm.chat [.system o.systemPrompt, .user q] o.allFunctions "auto").choices.head?).map
        (fun c => c.message.tool_calls.getD []) = some [tc])
    (hok : processQuery o q = .ok r) :
    (∀ (calls : List ToolCall) (msgs : List Message) (invs : List Invocation)
        (out : List Message × List Invocation),
        dispatchCalls o calls msgs invs = .ok out →
        out.1 = msgs ++ (calls.map (dispatchPairOf o)).flatten ∧
        out.2 = invs ++ calls.map (invocationOf o) ∧
        ∀ c ∈ calls, ∃ content, dispatchPairOf o c = [.assistant [c], .tool c.id content]) ∧
    r.finalMessages = [.system o.systemPrompt, .user q] ++ dispatchPairOf o tc ∧
    (∃ content, dispatchPairOf o tc = [.assistant [tc], .tool tc.id content]) := by
  refine ⟨dispatchCalls_ok_shape o, ?_⟩
  simp only [processQuery] at hok
  cases hchoices : (o.llm.chat [.system o.systemPrompt, .user q] o.allFunctions "auto").choices with
  | nil =>
    rw [hchoices] at hresp
    exact Option.noConfusion hresp
  | cons choice rest =>
    rw [hchoices] at hresp
    simp only [List.head?_cons, Option.map_some] at hresp
    have hresp2 : choice.message.tool_calls.getD [] = [tc] :=
      Option.some.inj hresp
    simp only [hchoices, hresp2] at hok
    cases hdisp : dispatchCalls o [tc] [.system o.systemPrompt, .user q] [] with
    | error e =>
      rw [hdisp] at hok
      exact Except.noConfusion hok
    | ok out =>
      obtain ⟨msgs', invs'⟩ := out
      simp only [hdisp] at hok
      obtain ⟨h1, _, h3⟩ := dispatchCalls_ok_shape o [tc]
        [.system o.systemPrompt, .user q] [] (msgs', invs') hdisp
      cases hfin : (o.llm.chat msgs' [] "auto").choices with
      | nil =>
        simp only [hfin] at hok
        exact Except.noConfusion hok
      | cons fchoice frest =>
        simp only [hfin] at hok
        injection hok with h2
        subst h2
        refine ⟨?_, h3 tc (List.mem_cons_self tc [])⟩
        simpa using h1

/-- C9 witness: the single-call run of `fx1O` appends exactly the
assistant tool-call message and the correlated tool message before the
final model call. -/
theorem C9_witness :
    processQuery fx1O "q" = .ok fx1Result ∧
    fx1Result.finalMessages = [.system "sys", .user "q"] ++ dispatchPairOf fx1O fx1Tc :=
  ⟨rfl, (C9_sequential_pairs fx1O "q" fx1Tc fx1Result rfl rfl).2.1⟩

/-- C2 counterexample: server `a` with tool `b_c` and server `a_b` with
tool `c` register distinct descriptors (their descriptions differ) that
share the qualified name `a_b_c`, so qualified names are not unique
across the registry. -/
theorem C2_counterexample :
    fx2O.allFunctions.map (fun f => f.function.name) = ["a_b_c", "a_b_c"] ∧
    fx2O.allFunctions.map (fun f => f.function.description) = ["[a] d1", "[a_b] d2"] ∧
    ¬ (fx2O.allFunctions.map (fun f => f.function.name)).Nodup :=
  ⟨rfl, rfl, by decide⟩

/-- C2 (amended): qualified names are pairwise distinct across the
registry provided the configured server names are pairwise distinct and
consist only of identifier-safe characters other than the separator
`_`, and each backend has pairwise distinct sanitized tool names;
without these side conditions the sanitizer can map the separator into
names and distinct descriptors can collide (see the counterexample). -/
theorem C2_qualified_name_uniqueness
    (cfgs : List (String × Backend)) (llm : LLM) (sp : String)
    (hnodup : (cfgs.map Prod.fst).Nodup)
    (hsafe : ∀ p ∈ cfgs, serverNameSafe p.1 = true)
    (htools : ∀ p ∈ cfgs, (p.2.tools.map (fun t => sanitize t.name)).Nodup) :
    ((registerServersFromConfig (mkOrchestrator llm sp) cfgs).allFunctions.map
        (fun f => f.function.name)).Nodup := by
  rw [registerAll_allFunctions]
  simp only [mkOrchestrator, List.nil_append]
  rw [List.map_flatMap]
  have hnames : ∀ p ∈ cfgs,
      (buildFunctions p.1 p.2.tools).map (fun f => f.function.name)
        = p.2.tools.map (fun t => qualifiedName p.1 t.name) := by
    intro p _
    simp [buildFunctions, List.map_map]
  refine List.nodup_flatMap.mpr ⟨?_, ?_⟩
  · intro p hp
    rw [hnames p hp]
    have hform : p.2.tools.map (fun t => qualifiedName p.1 t.name)
        = (p.2.tools.map (fun t => sanitize t.name)).map
            (fun st => (⟨p.1.data ++ '_' :: st.data⟩ : String)) := by
      rw [List.map_map]
      refine List.map_congr_left ?_
      intro t _
      apply String.ext
      rw [qualifiedName_data_safe p.1 t.name (hsafe p hp)]
      rfl
    rw [hform]
    refine (htools p hp).map ?_
    intro a b hab
    have hdata := congrArg String.data hab
    have hcons : ('_' :: a.data : List Char) = '_' :: b.data :=
      List.append_cancel_left hdata
    exact String.ext (List.cons.inj hcons).2
  · have hp1 : cfgs.Pairwise (fun p q => p.1 ≠ q.1) := List.pairwise_map.mp hnodup
    refine List.Pairwise.imp_of_mem ?_ hp1
    intro p q hpmem hqmem hne
    simp only [Function.onFun]
    intro x hxp hxq
    rw [hnames p hpmem] at hxp
    rw [hnames q hqmem] at hxq
    obtain ⟨t₁, _, hx1⟩ := List.mem_map.mp hxp
    obtain ⟨t₂, _, hx2⟩ := List.mem_map.mp hxq
    have hdata : (qualifiedName p.1 t₁.name).data = (qualifiedName q.1 t₂.name).data := by
      rw [hx1, ← hx2]
    rw [qualifiedName_data_safe p.1 t₁.name (hsafe p hpmem),
      qualifiedName_data_safe q.1 t₂.name (hsafe q hqmem)] at hdata
    have := append_underscore_inj p.1.data _ q.1.data _
      (serverNameSafe_no_underscore p.1 (hsafe p hpmem))
      (serverNameSafe_no_underscore q.1 (hsafe q hqmem)) hdata
    exact hne (String.ext this.1)

/-- C2 witness: the `files`/`math` scenario satisfies the side
conditions and yields the distinct qualified names `files_read` and
`math_read`. -/
theorem C2_witness :
    (wcfgs.map Prod.fst).Nodup ∧
    ((registerServersFromConfig (mkOrchestrator sampleTextLLM "sys") wcfgs).allFunctions.map
        (fun f => f.function.name)).Nodup :=
  ⟨by decide, C2_qualified_name_uniqueness wcfgs sampleTextLLM "sys"
    (by decide) (by decide) (by decide)⟩
